import Mathlib

/-!
Verification of the obstacle-classification filter and vector-scene writer of
`demo/png_2d_planning.cpp` (2D PNG path-planning demo).

The raster is embedded as a list of rows, each row a flat list of bytes
(3 bytes per pixel, row-major), mirroring the `png_bytep *rowPointers`
representation of the source.  Fallible pixel reads are embedded with
`Option`: an out-of-bounds access yields `none`.
-/

namespace Png2dPlanning

/-- Reference obstacle color, one channel triple (from `PNGColor`). -/
structure PNGColor where
  red : Nat
  green : Nat
  blue : Nat
deriving DecidableEq

/-- Modelled from the spec: the member `PNGColor::isObstacle` is declared in
`png_2d_scenario.hpp`, which is not under src/.  Per the spec it returns true
iff every channel's absolute difference from the reference color is within
the tolerance. -/
def PNGColor.isObstacle (c : PNGColor) (r g b tol : Nat) : Bool :=
  decide (((r : Int) - c.red).natAbs ≤ tol) &&
  decide (((g : Int) - c.green).natAbs ≤ tol) &&
  decide (((b : Int) - c.blue).natAbs ≤ tol)

/-- One pixel's classification in `filter`: the near-white rule
(`px[0] > 250 && px[1] > 250 && px[2] > 250`) OR-ed with the matcher loop
(which breaks on the first matching `PNGColor`). -/
def classifyPixel (filters : List PNGColor) (tol r g b : Nat) : Bool :=
  (decide (250 < r) && decide (250 < g) && decide (250 < b)) ||
    filters.any fun c => c.isObstacle r g b tol

/-- Inner `x` loop of `filter` over one row: consumes 3 bytes per pixel,
classifies it, and (when `recolor` is set, mirroring `PRINT_FILTERED_IMAGE`)
overwrites the pixel in place with (0,0,0) for obstacle and (255,255,255)
for free.  Bytes past `width * 3` are left untouched.  Reading past the end
of the row buffer yields `none` (the out-of-bounds access of the C code). -/
def filterRowGo (filters : List PNGColor) (tol : Nat) (recolor : Bool) :
    Nat → List Nat → Option (List Bool × List Nat)
  | 0, bytes => some ([], bytes)
  | w + 1, r :: g :: b :: rest =>
    let isObs := classifyPixel filters tol r g b
    match filterRowGo filters tol recolor w rest with
    | none => none
    | some (grid, rest') =>
      some (isObs :: grid,
        (if recolor then (if isObs then [0, 0, 0] else [255, 255, 255])
         else [r, g, b]) ++ rest')
  | _ + 1, _ => none

/-- Outer `y` loop of `filter`: processes `height` rows, accumulating the
row-major obstacle grid and the (possibly recolored) rows.  Accessing a row
past the end of `rowPointers` yields `none`. -/
def filterImgGo (filters : List PNGColor) (tol : Nat) (recolor : Bool)
    (width : Nat) : Nat → List (List Nat) → Option (List Bool × List (List Nat))
  | 0, rows => some ([], rows)
  | _ + 1, [] => none
  | h + 1, row :: rest =>
    match filterRowGo filters tol recolor width row with
    | none => none
    | some (grid, row') =>
      match filterImgGo filters tol recolor width h rest with
      | none => none
      | some (grids, rest') => some (grid ++ grids, row' :: rest')

/-- The spec's `classify` operation: the body of `filter` with the tolerance
and the recolor flag (hard-coded to `15` and `PRINT_FILTERED_IMAGE` in the
source) exposed as parameters, as spec section 4.2 describes it.  Returns the
obstacle grid together with the raster after the optional in-place recolor. -/
def classify (rowPointers : List (List Nat)) (filters : List PNGColor)
    (width height tol : Nat) (recolor : Bool) :
    Option (List Bool × List (List Nat)) :=
  filterImgGo filters tol recolor width height rowPointers

/-- `constexpr bool PRINT_FILTERED_IMAGE = true`. -/
def PRINT_FILTERED_IMAGE : Bool := true

/-- The source's `filter` as written: tolerance 15, recolor controlled by
`PRINT_FILTERED_IMAGE`. -/
def filter (rowPointers : List (List Nat)) (filters : List PNGColor)
    (width height : Nat) : Option (List Bool × List (List Nat)) :=
  classify rowPointers filters width height 15 PRINT_FILTERED_IMAGE

/-- Read the three channels of the pixel at column `x`, row `y` of a raster
(row-major, 3 bytes per pixel); `none` when out of bounds. -/
def pixelAt (rows : List (List Nat)) (x y : Nat) : Option (Nat × Nat × Nat) := do
  let row ← rows[y]?
  let r ← row[x * 3]?
  let g ← row[x * 3 + 1]?
  let b ← row[x * 3 + 2]?
  pure (r, g, b)

/-- One call of `Visitor::edge`: the state is the value of the function-local
`static int count` paired with the segments rendered so far.  The counter is
pre-incremented on every delivered edge; the segment is appended only while
the incremented counter has not passed 10000. -/
def visitorEdge {α : Type} (st : Nat × List (α × α)) (fromPt toPt : α) :
    Nat × List (α × α) :=
  let count := st.1 + 1
  if 10000 < count then (count, st.2)
  else (count, st.2 ++ [(fromPt, toPt)])

/-- Deliver a stream of edges to `Visitor::edge`, threading the static
counter and the rendered segments. -/
def visitEdges {α : Type} (st : Nat × List (α × α)) :
    List (α × α) → Nat × List (α × α)
  | [] => st
  | (f, t) :: rest => visitEdges (visitorEdge st f t) rest

/-- The solution-path loop of `main`: iterates `it` from `begin` while
`it + 1 != end`, emitting one segment per consecutive pair of points. -/
def solutionSegments {α : Type} : List α → List (α × α)
  | [] => []
  | [_] => []
  | a :: b :: rest => (a, b) :: solutionSegments (b :: rest)

/-- One emission into the SVG document stream. -/
inductive SvgEvent (α : Type) where
  | header (w h : Nat)
  | image (path : String)
  | solutionEdge (a b : α)
  | visitedEdge (a b : α)
  | footer
deriving DecidableEq

/-- `std::string inputName = "../../png_planning_input.png"`. -/
def inputName : String := "../../png_planning_input.png"

/-- The document-producing branch of `main`: when the planner's solution is
empty nothing is written at all; otherwise the header (`startSvg`), the
background image (`addImage`), the solution poly-line, the capped visited
edges (via `Visitor` with the static counter starting at 0), and the footer
(`endSvg`) are emitted in order.  The planner's edge stream is the `edges`
parameter. -/
def mainDraw {α : Type} (solution : List α) (edges : List (α × α))
    (w h : Nat) : List (SvgEvent α) :=
  if solution.isEmpty then []
  else
    SvgEvent.header w h :: SvgEvent.image inputName ::
      (((solutionSegments solution).map fun s => SvgEvent.solutionEdge s.1 s.2) ++
        (((visitEdges (0, []) edges).2).map fun s => SvgEvent.visitedEdge s.1 s.2) ++
        [SvgEvent.footer])

/-- Closed form for delivering a whole edge stream: the static counter grows
by the number of delivered edges, and exactly the first `10000 - count`
edges are appended. -/
theorem visitEdges_general {α : Type} (es : List (α × α)) :
    ∀ (c : Nat) (out : List (α × α)),
      visitEdges (c, out) es = (c + es.length, out ++ es.take (10000 - c)) := by
  induction es with
  | nil => intro c out; simp [visitEdges]
  | cons e rest ih =>
    intro c out
    obtain ⟨f, t⟩ := e
    by_cases hc : 10000 < c + 1
    · have h0 : 10000 - c = 0 := by omega
      have h0' : 10000 - (c + 1) = 0 := by omega
      simp [visitEdges, visitorEdge, hc, ih, h0, h0']
      omega
    · have h1 : 10000 - c = (10000 - (c + 1)) + 1 := by omega
      simp [visitEdges, visitorEdge, hc, ih, h1]
      omega

theorem getLast?_cons_cons_append {α : Type} (x y : α) (A B : List α) (f : α) :
    (x :: y :: (A ++ (B ++ [f]))).getLast? = some f := by
  have h : x :: y :: (A ++ (B ++ [f])) = (x :: y :: (A ++ B)) ++ [f] := by simp
  rw [h, List.getLast?_concat]

/-- On success the inner loop yields one grid entry per pixel and keeps the
row's byte length. -/
theorem filterRowGo_length (filters : List PNGColor) (tol : Nat) (rc : Bool) :
    ∀ (w : Nat) (bytes : List Nat) (g : List Bool) (bytes' : List Nat),
      filterRowGo filters tol rc w bytes = some (g, bytes') →
      g.length = w ∧ bytes'.length = bytes.length := by
  intro w
  induction w with
  | zero =>
    intro bytes g bytes' h
    simp [filterRowGo] at h
    obtain ⟨h1, h2⟩ := h
    simp [← h1, ← h2]
  | succ n ih =>
    intro bytes g bytes' h
    rcases bytes with _ | ⟨b0, _ | ⟨b1, _ | ⟨b2, rest⟩⟩⟩
    · simp [filterRowGo] at h
    · simp [filterRowGo] at h
    · simp [filterRowGo] at h
    · rw [filterRowGo] at h
      cases hrec : filterRowGo filters tol rc n rest with
      | none => rw [hrec] at h; simp at h
      | some pr =>
        obtain ⟨grid, rest'⟩ := pr
        rw [hrec] at h
        simp at h
        obtain ⟨hg, hb⟩ := h
        have := ih rest grid rest' hrec
        subst hg hb
        rcases rc with _ | _ <;> rcases hobs : classifyPixel filters tol b0 b1 b2 <;>
          simp [hobs] <;> omega

/-- With the recolor flag off, the inner loop leaves the row bytes untouched. -/
theorem filterRowGo_false_bytes (filters : List PNGColor) (tol : Nat) :
    ∀ (w : Nat) (bytes : List Nat) (g : List Bool) (bytes' : List Nat),
      filterRowGo filters tol false w bytes = some (g, bytes') → bytes' = bytes := by
  intro w
  induction w with
  | zero =>
    intro bytes g bytes' h
    simp [filterRowGo] at h
    exact h.2.symm
  | succ n ih =>
    intro bytes g bytes' h
    rcases bytes with _ | ⟨b0, _ | ⟨b1, _ | ⟨b2, rest⟩⟩⟩
    · simp [filterRowGo] at h
    · simp [filterRowGo] at h
    · simp [filterRowGo] at h
    · rw [filterRowGo] at h
      cases hrec : filterRowGo filters tol false n rest with
      | none => rw [hrec] at h; simp at h
      | some pr =>
        obtain ⟨grid, rest'⟩ := pr
        rw [hrec] at h
        simp at h
        obtain ⟨hg, hb⟩ := h
        have hr := ih rest grid rest' hrec
        subst hr
        simp [← hb]

/-- A successful recoloring run classifies exactly as the non-recoloring run
on the same (original) row bytes. -/
theorem filterRowGo_false_of_true (filters : List PNGColor) (tol : Nat) :
    ∀ (w : Nat) (bytes : List Nat) (g : List Bool) (bytes' : List Nat),
      filterRowGo filters tol true w bytes = some (g, bytes') →
      filterRowGo filters tol false w bytes = some (g, bytes) := by
  intro w
  induction w with
  | zero =>
    intro bytes g bytes' h
    simp [filterRowGo] at h ⊢
    exact h.1
  | succ n ih =>
    intro bytes g bytes' h
    rcases bytes with _ | ⟨b0, _ | ⟨b1, _ | ⟨b2, rest⟩⟩⟩
    · simp [filterRowGo] at h
    · simp [filterRowGo] at h
    · simp [filterRowGo] at h
    · rw [filterRowGo] at h
      rw [filterRowGo]
      cases hrec : filterRowGo filters tol true n rest with
      | none => rw [hrec] at h; simp at h
      | some pr =>
        obtain ⟨grid, rest'⟩ := pr
        rw [hrec] at h
        simp at h
        obtain ⟨hg, _⟩ := h
        rw [ih rest grid rest' hrec]
        simp [← hg]

/-- Entry `x` of the inner loop's grid is the classification of the three
bytes of pixel `x` of the original row. -/
theorem filterRowGo_get (filters : List PNGColor) (tol : Nat) (rc : Bool) :
    ∀ (w : Nat) (bytes : List Nat) (g : List Bool) (bytes' : List Nat),
      filterRowGo filters tol rc w bytes = some (g, bytes') →
      ∀ x r gg bb, x < w →
        bytes[x * 3]? = some r → bytes[x * 3 + 1]? = some gg →
        bytes[x * 3 + 2]? = some bb →
        g[x]? = some (classifyPixel filters tol r gg bb) := by
  intro w
  induction w with
  | zero =>
    intro bytes g bytes' _ x r gg bb hx _ _ _
    omega
  | succ n ih =>
    intro bytes g bytes' h x r gg bb hx hr hgg hbb
    rcases bytes with _ | ⟨b0, _ | ⟨b1, _ | ⟨b2, rest⟩⟩⟩
    · simp [filterRowGo] at h
    · simp [filterRowGo] at h
    · simp [filterRowGo] at h
    · rw [filterRowGo] at h
      cases hrec : filterRowGo filters tol rc n rest with
      | none => rw [hrec] at h; simp at h
      | some pr =>
        obtain ⟨grid, rest'⟩ := pr
        rw [hrec] at h
        simp at h
        obtain ⟨hg, _⟩ := h
        cases x with
        | zero =>
          simp at hr hgg hbb
          subst hr hgg hbb
          simp [← hg]
        | succ m =>
          have e0 : (m + 1) * 3 = m * 3 + 1 + 1 + 1 := by ring
          have e1 : (m + 1) * 3 + 1 = m * 3 + 1 + 1 + 1 + 1 := by ring
          have e2 : (m + 1) * 3 + 2 = m * 3 + 2 + 1 + 1 + 1 := by ring
          rw [e0] at hr
          rw [e1] at hgg
          rw [e2] at hbb
          simp only [List.getElem?_cons_succ] at hr hgg hbb
          have hrec' := ih rest grid rest' hrec m r gg bb (by omega) hr
            (by simpa using hgg) hbb
          simp [← hg, hrec']

/-- After a successful recoloring run, pixel `x` of the output row is all
zeros when classified obstacle and all 255 when classified free, matching
grid entry `x`. -/
theorem filterRowGo_true_get (filters : List PNGColor) (tol : Nat) :
    ∀ (w : Nat) (bytes : List Nat) (g : List Bool) (bytes' : List Nat),
      filterRowGo filters tol true w bytes = some (g, bytes') →
      ∀ x, x < w → ∃ v, g[x]? = some v ∧
        bytes'[x * 3]? = some (if v then 0 else 255) ∧
        bytes'[x * 3 + 1]? = some (if v then 0 else 255) ∧
        bytes'[x * 3 + 2]? = some (if v then 0 else 255) := by
  intro w
  induction w with
  | zero =>
    intro bytes g bytes' _ x hx
    omega
  | succ n ih =>
    intro bytes g bytes' h x hx
    rcases bytes with _ | ⟨b0, _ | ⟨b1, _ | ⟨b2, rest⟩⟩⟩
    · simp [filterRowGo] at h
    · simp [filterRowGo] at h
    · simp [filterRowGo] at h
    · rw [filterRowGo] at h
      cases hrec : filterRowGo filters tol true n rest with
      | none => rw [hrec] at h; simp at h
      | some pr =>
        obtain ⟨grid, rest'⟩ := pr
        rw [hrec] at h
        simp at h
        obtain ⟨hg, hb⟩ := h
        cases x with
        | zero =>
          refine ⟨classifyPixel filters tol b0 b1 b2, ?_, ?_⟩
          · simp [← hg]
          · rcases hobs : classifyPixel filters tol b0 b1 b2 <;>
              simp [← hb, hobs]
        | succ m =>
          obtain ⟨v, hv, hb0, hb1, hb2⟩ := ih rest grid rest' hrec m (by omega)
          refine ⟨v, ?_, ?_, ?_, ?_⟩
          · simp [← hg, hv]
          · have e0 : (m + 1) * 3 = m * 3 + 1 + 1 + 1 := by ring
            rw [e0, ← hb]
            rcases hobs : classifyPixel filters tol b0 b1 b2 <;>
              simp [hobs, hb0]
          · have e1 : (m + 1) * 3 + 1 = m * 3 + 1 + 1 + 1 + 1 := by ring
            rw [e1, ← hb]
            rcases hobs : classifyPixel filters tol b0 b1 b2 <;>
              simp [hobs, hb1]
          · have e2 : (m + 1) * 3 + 2 = m * 3 + 2 + 1 + 1 + 1 := by ring
            rw [e2, ← hb]
            rcases hobs : classifyPixel filters tol b0 b1 b2 <;>
              simp [hobs, hb2]

theorem pixelAt_cons_succ (row : List Nat) (rest : List (List Nat)) (x y : Nat) :
    pixelAt (row :: rest) x (y + 1) = pixelAt rest x y := by
  simp only [pixelAt, List.getElem?_cons_succ]

theorem pixelAt_cons_zero_elim (row : List Nat) (rest : List (List Nat))
    (x r g b : Nat) (h : pixelAt (row :: rest) x 0 = some (r, g, b)) :
    row[x * 3]? = some r ∧ row[x * 3 + 1]? = some g ∧ row[x * 3 + 2]? = some b := by
  cases hr : row[x * 3]? with
  | none => simp [pixelAt, hr] at h
  | some r0 =>
    cases hg : row[x * 3 + 1]? with
    | none => simp [pixelAt, hr, hg] at h
    | some g0 =>
      cases hb : row[x * 3 + 2]? with
      | none => simp [pixelAt, hr, hg, hb] at h
      | some b0 =>
        simp [pixelAt, hr, hg, hb] at h
        obtain ⟨h1, h2, h3⟩ := h
        subst h1 h2 h3
        exact ⟨rfl, rfl, rfl⟩

theorem pixelAt_cons_zero_intro (row : List Nat) (rest : List (List Nat))
    (x a b c : Nat) (h1 : row[x * 3]? = some a) (h2 : row[x * 3 + 1]? = some b)
    (h3 : row[x * 3 + 2]? = some c) :
    pixelAt (row :: rest) x 0 = some (a, b, c) := by
  simp [pixelAt, h1, h2, h3]

/-- On success the outer loop yields a grid with one entry per pixel of the
`height` processed rows. -/
theorem filterImgGo_length (filters : List PNGColor) (tol : Nat) (rc : Bool)
    (width : Nat) :
    ∀ (h : Nat) (rows : List (List Nat)) (g : List Bool) (rows' : List (List Nat)),
      filterImgGo filters tol rc width h rows = some (g, rows') →
      g.length = h * width := by
  intro h
  induction h with
  | zero =>
    intro rows g rows' hc
    simp [filterImgGo] at hc
    simp [← hc.1]
  | succ n ih =>
    intro rows g rows' hc
    rcases rows with _ | ⟨row, rest⟩
    · simp [filterImgGo] at hc
    · rw [filterImgGo] at hc
      cases hrow : filterRowGo filters tol rc width row with
      | none => rw [hrow] at hc; simp at hc
      | some pr =>
        obtain ⟨grid, row'⟩ := pr
        rw [hrow] at hc
        cases hrec : filterImgGo filters tol rc width n rest with
        | none => rw [hrec] at hc; simp at hc
        | some qr =>
          obtain ⟨grids, rest'⟩ := qr
          rw [hrec] at hc
          simp at hc
          have h1 := (filterRowGo_length filters tol rc width row grid row' hrow).1
          have h2 := ih rest grids rest' hrec
          have := hc.1
          subst this
          simp [h1, h2, Nat.succ_mul]
          omega

/-- With the recolor flag off, the outer loop leaves the raster untouched. -/
theorem filterImgGo_false_rows (filters : List PNGColor) (tol : Nat)
    (width : Nat) :
    ∀ (h : Nat) (rows : List (List Nat)) (g : List Bool) (rows' : List (List Nat)),
      filterImgGo filters tol false width h rows = some (g, rows') →
      rows' = rows := by
  intro h
  induction h with
  | zero =>
    intro rows g rows' hc
    simp [filterImgGo] at hc
    exact hc.2.symm
  | succ n ih =>
    intro rows g rows' hc
    rcases rows with _ | ⟨row, rest⟩
    · simp [filterImgGo] at hc
    · rw [filterImgGo] at hc
      cases hrow : filterRowGo filters tol false width row with
      | none => rw [hrow] at hc; simp at hc
      | some pr =>
        obtain ⟨grid, row'⟩ := pr
        rw [hrow] at hc
        cases hrec : filterImgGo filters tol false width n rest with
        | none => rw [hrec] at hc; simp at hc
        | some qr =>
          obtain ⟨grids, rest'⟩ := qr
          rw [hrec] at hc
          simp at hc
          have h1 := filterRowGo_false_bytes filters tol width row grid row' hrow
          have h2 := ih rest grids rest' hrec
          rw [← hc.2, h1, h2]

/-- A successful recoloring run of the outer loop classifies exactly as the
non-recoloring run on the same (original) raster. -/
theorem filterImgGo_false_of_true (filters : List PNGColor) (tol : Nat)
    (width : Nat) :
    ∀ (h : Nat) (rows : List (List Nat)) (g : List Bool) (rows' : List (List Nat)),
      filterImgGo filters tol true width h rows = some (g, rows') →
      filterImgGo filters tol false width h rows = some (g, rows) := by
  intro h
  induction h with
  | zero =>
    intro rows g rows' hc
    simp [filterImgGo] at hc ⊢
    exact hc.1
  | succ n ih =>
    intro rows g rows' hc
    rcases rows with _ | ⟨row, rest⟩
    · simp [filterImgGo] at hc
    · rw [filterImgGo] at hc
      rw [filterImgGo]
      cases hrow : filterRowGo filters tol true width row with
      | none => rw [hrow] at hc; simp at hc
      | some pr =>
        obtain ⟨grid, row'⟩ := pr
        rw [hrow] at hc
        cases hrec : filterImgGo filters tol true width n rest with
        | none => rw [hrec] at hc; simp at hc
        | some qr =>
          obtain ⟨grids, rest'⟩ := qr
          rw [hrec] at hc
          simp at hc
          rw [filterRowGo_false_of_true filters tol width row grid row' hrow]
          rw [ih rest grids rest' hrec]
          simp [← hc.1]

/-- Entry `y * width + x` of the outer loop's grid is the classification of
pixel `(x, y)` of the original raster. -/
theorem filterImgGo_get (filters : List PNGColor) (tol : Nat) (rc : Bool)
    (width : Nat) :
    ∀ (h : Nat) (rows : List (List Nat)) (g : List Bool) (rows' : List (List Nat)),
      filterImgGo filters tol rc width h rows = some (g, rows') →
      ∀ x y r gg bb, x < width → y < h →
        pixelAt rows x y = some (r, gg, bb) →
        g[y * width + x]? = some (classifyPixel filters tol r gg bb) := by
  intro h
  induction h with
  | zero =>
    intro rows g rows' _ x y r gg bb _ hy _
    omega
  | succ n ih =>
    intro rows g rows' hc x y r gg bb hx hy hp
    rcases rows with _ | ⟨row, rest⟩
    · simp [filterImgGo] at hc
    · rw [filterImgGo] at hc
      cases hrow : filterRowGo filters tol rc width row with
      | none => rw [hrow] at hc; simp at hc
      | some pr =>
        obtain ⟨grid, row'⟩ := pr
        rw [hrow] at hc
        cases hrec : filterImgGo filters tol rc width n rest with
        | none => rw [hrec] at hc; simp at hc
        | some qr =>
          obtain ⟨grids, rest'⟩ := qr
          rw [hrec] at hc
          simp at hc
          obtain ⟨hg, _⟩ := hc
          have hlen := (filterRowGo_length filters tol rc width row grid row' hrow).1
          cases y with
          | zero =>
            obtain ⟨hr, hgg, hbb⟩ := pixelAt_cons_zero_elim row rest x r gg bb hp
            have hx' : x < grid.length := by omega
            rw [← hg, Nat.zero_mul, Nat.zero_add, List.getElem?_append_left hx']
            exact filterRowGo_get filters tol rc width row grid row' hrow x r gg bb hx
              hr hgg hbb
          | succ m =>
            have hp' : pixelAt rest x m = some (r, gg, bb) := by
              rw [← pixelAt_cons_succ row rest x m]
              exact hp
            have hge : grid.length ≤ (m + 1) * width + x := by
              rw [hlen]
              have : width ≤ (m + 1) * width := by
                calc width = 1 * width := (Nat.one_mul width).symm
                _ ≤ (m + 1) * width := Nat.mul_le_mul_right width (by omega)
              omega
            rw [← hg, List.getElem?_append_right hge]
            have hidx : (m + 1) * width + x - grid.length = m * width + x := by
              rw [hlen]
              have : (m + 1) * width = m * width + width := Nat.succ_mul m width
              omega
            rw [hidx]
            exact ih rest grids rest' hrec x m r gg bb hx (by omega) hp'

/-- After a successful recoloring run, pixel `(x, y)` of the output raster is
(0,0,0) when classified obstacle and (255,255,255) when classified free,
matching grid entry `y * width + x`. -/
theorem filterImgGo_true_get (filters : List PNGColor) (tol : Nat)
    (width : Nat) :
    ∀ (h : Nat) (rows : List (List Nat)) (g : List Bool) (rows' : List (List Nat)),
      filterImgGo filters tol true width h rows = some (g, rows') →
      ∀ x y, x < width → y < h →
        ∃ v, g[y * width + x]? = some v ∧
          pixelAt rows' x y =
            some (if v then 0 else 255, if v then 0 else 255, if v then 0 else 255) := by
  intro h
  induction h with
  | zero =>
    intro rows g rows' _ x y _ hy
    omega
  | succ n ih =>
    intro rows g rows' hc x y hx hy
    rcases rows with _ | ⟨row, rest⟩
    · simp [filterImgGo] at hc
    · rw [filterImgGo] at hc
      cases hrow : filterRowGo filters tol true width row with
      | none => rw [hrow] at hc; simp at hc
      | some pr =>
        obtain ⟨grid, row'⟩ := pr
        rw [hrow] at hc
        cases hrec : filterImgGo filters tol true width n rest with
        | none => rw [hrec] at hc; simp at hc
        | some qr =>
          obtain ⟨grids, rest'⟩ := qr
          rw [hrec] at hc
          simp at hc
          obtain ⟨hg, hrows⟩ := hc
          have hlen := (filterRowGo_length filters tol true width row grid row' hrow).1
          cases y with
          | zero =>
            obtain ⟨v, hv, hb0, hb1, hb2⟩ :=
              filterRowGo_true_get filters tol width row grid row' hrow x hx
            refine ⟨v, ?_, ?_⟩
            · have hx' : x < grid.length := by omega
              rw [← hg, Nat.zero_mul, Nat.zero_add, List.getElem?_append_left hx']
              exact hv
            · rw [← hrows]
              exact pixelAt_cons_zero_intro row' rest' x _ _ _ hb0 hb1 hb2
          | succ m =>
            obtain ⟨v, hv, hpx⟩ := ih rest grids rest' hrec x m hx (by omega)
            refine ⟨v, ?_, ?_⟩
            · have hge : grid.length ≤ (m + 1) * width + x := by
                rw [hlen]
                have : width ≤ (m + 1) * width := by
                  calc width = 1 * width := (Nat.one_mul width).symm
                  _ ≤ (m + 1) * width := Nat.mul_le_mul_right width (by omega)
                omega
              rw [← hg, List.getElem?_append_right hge]
              have hidx : (m + 1) * width + x - grid.length = m * width + x := by
                rw [hlen]
                have : (m + 1) * width = m * width + width := Nat.succ_mul m width
                omega
              rw [hidx]
              exact hv
            · rw [← hrows, pixelAt_cons_succ]
              exact hpx

/-- C2: starting from a fresh static counter, the visited-edge renderer
renders exactly the first 10000 delivered edges, in delivery order, and
silently drops the rest; in particular delivering 10050 edges yields exactly
10000 rendered segments. -/
theorem visitEdges_cap {α : Type} :
    (∀ es : List (α × α),
        (visitEdges (0, ([] : List (α × α))) es).2 = es.take 10000)
    ∧ ∀ p : α × α,
        ((visitEdges (0, ([] : List (α × α))) (List.replicate 10050 p)).2).length
          = 10000 := by
  constructor
  · intro es
    simp [visitEdges_general]
  · intro p
    rw [visitEdges_general]
    simp only [List.nil_append, List.length_take, List.length_replicate]
    omega

/-- C4 (amended): the rendered-edge counter is the function-local
`static int count`, a process-wide running total that persists across
Visitor instances and traversals; a second traversal renders only the first
`10000 - (number of edges already delivered)` of its edges, not a fresh
10000. -/
theorem visitEdges_static_total {α : Type} (es1 es2 : List (α × α)) :
    (visitEdges ((visitEdges (0, ([] : List (α × α))) es1).1,
        ([] : List (α × α))) es2).2
      = es2.take (10000 - es1.length) := by
  simp [visitEdges_general]

/-- C4 counterexample: after a first traversal has delivered 10000 edges, a
second traversal with a fresh Visitor renders none of its edges: the static
counter is not reset to zero for a new invocation. -/
theorem visitEdges_reset_counterexample :
    (visitEdges
      ((visitEdges (0, ([] : List ((Int × Int) × (Int × Int))))
          (List.replicate 10000 (((0 : Int), (0 : Int)), ((1 : Int), (1 : Int))))).1,
        ([] : List ((Int × Int) × (Int × Int))))
      [(((0 : Int), (0 : Int)), ((1 : Int), (1 : Int)))]).2 = [] := by
  have h1 := visitEdges_general
      (List.replicate 10000 (((0 : Int), (0 : Int)), ((1 : Int), (1 : Int)))) 0
      ([] : List ((Int × Int) × (Int × Int)))
  rw [h1, visitEdges_general]
  simp only [List.nil_append, List.length_replicate]
  norm_num

/-- C6: the solution-path loop emits exactly `N - 1` segments for an
`N`-point path (none when `N < 2`), segment `i` joining point `i` to point
`i + 1` of the path, in input order. -/
theorem solutionSegments_spec {α : Type} (p : List α) :
    ((solutionSegments p).length = p.length - 1)
    ∧ (p.length < 2 → solutionSegments p = [])
    ∧ ∀ i a b, p[i]? = some a → p[i + 1]? = some b →
        (solutionSegments p)[i]? = some (a, b) := by
  induction p with
  | nil =>
    refine ⟨rfl, fun _ => rfl, ?_⟩
    intro i a b h _
    simp at h
  | cons x xs ih =>
    cases xs with
    | nil =>
      refine ⟨rfl, fun _ => rfl, ?_⟩
      intro i a b _ hy
      cases i with
      | zero => simp at hy
      | succ j => simp at hy
    | cons y ys =>
      refine ⟨?_, ?_, ?_⟩
      · have h1 := ih.1
        simp [solutionSegments] at h1 ⊢
        omega
      · intro h
        simp at h
        omega
      · intro i a b hx hy
        cases i with
        | zero =>
          simp at hx hy
          simp [solutionSegments, hx, hy]
        | succ j =>
          have hx' : (y :: ys)[j]? = some a := by simpa using hx
          have hy' : (y :: ys)[j + 1]? = some b := by simpa using hy
          have := ih.2.2 j a b hx' hy'
          simpa [solutionSegments] using this

theorem solutionSegments_spec_witness :
    (solutionSegments
        [((0 : Int), (0 : Int)), ((50 : Int), (50 : Int)), ((99 : Int), (99 : Int))])[0]?
      = some (((0 : Int), (0 : Int)), ((50 : Int), (50 : Int))) :=
  (solutionSegments_spec
      [((0 : Int), (0 : Int)), ((50 : Int), (50 : Int)), ((99 : Int), (99 : Int))]).2.2
    0 ((0 : Int), (0 : Int)) ((50 : Int), (50 : Int)) (by decide) (by decide)

/-- C7: the color-match predicate holds iff each channel's absolute
difference from the reference is at most the tolerance; with reference
(100,100,100) and tolerance 15, pixel (115,115,115) matches and pixel
(116,100,100) does not. -/
theorem isObstacle_spec :
    (∀ (c : PNGColor) (r g b tol : Nat),
        PNGColor.isObstacle c r g b tol = true ↔
          |(r : Int) - c.red| ≤ tol ∧ |(g : Int) - c.green| ≤ tol ∧
            |(b : Int) - c.blue| ≤ tol)
    ∧ PNGColor.isObstacle ⟨100, 100, 100⟩ 115 115 115 15 = true
    ∧ PNGColor.isObstacle ⟨100, 100, 100⟩ 116 100 100 15 = false := by
  refine ⟨?_, by decide, by decide⟩
  intro c r g b tol
  simp only [PNGColor.isObstacle, Bool.and_eq_true, decide_eq_true_eq,
    Int.abs_eq_natAbs, Nat.cast_le]
  tauto

/-- C5: evaluation at a raster whose buffer (6 bytes) does not match the
declared 1-by-1 dimensions (which require 3 bytes): the filter performs no
defensive dimension check and returns a fully populated grid anyway instead
of failing fast. -/
theorem filter_no_dimension_check :
    classify [[10, 20, 30, 40, 50, 60]] [] 1 1 15 false =
        some ([false], [[10, 20, 30, 40, 50, 60]])
      ∧ 1 * 1 * 3 ≠ 6 := by
  exact ⟨by decide, by decide⟩

/-- C10: with an empty solution path nothing at all is emitted — no header,
background, path, visited edges, or footer; with a non-empty solution the
document starts with the header and the background image reference and ends
with the footer. -/
theorem mainDraw_spec {α : Type} (edges : List (α × α)) (w h : Nat) :
    (mainDraw ([] : List α) edges w h = [])
    ∧ ∀ sol : List α, sol ≠ [] →
        ∃ rest, mainDraw sol edges w h =
            SvgEvent.header w h :: SvgEvent.image inputName :: rest
          ∧ (mainDraw sol edges w h).getLast? = some SvgEvent.footer := by
  refine ⟨rfl, ?_⟩
  intro sol hs
  obtain ⟨s, ss, rfl⟩ : ∃ s ss, sol = s :: ss := by
    cases sol with
    | nil => exact absurd rfl hs
    | cons s ss => exact ⟨s, ss, rfl⟩
  have hd : mainDraw (s :: ss) edges w h =
      SvgEvent.header w h :: SvgEvent.image inputName ::
        (((solutionSegments (s :: ss)).map fun q => SvgEvent.solutionEdge q.1 q.2) ++
          ((((visitEdges (0, []) edges).2).map fun q => SvgEvent.visitedEdge q.1 q.2) ++
            [SvgEvent.footer])) := by simp [mainDraw]
  refine ⟨_, hd, ?_⟩
  rw [hd]
  exact getLast?_cons_cons_append _ _ _ _ _

theorem mainDraw_spec_witness :
    ∃ rest, mainDraw [(1 : Int)] ([] : List (Int × Int)) 4 4 =
        SvgEvent.header 4 4 :: SvgEvent.image inputName :: rest
      ∧ (mainDraw [(1 : Int)] ([] : List (Int × Int)) 4 4).getLast? =
        some SvgEvent.footer :=
  (mainDraw_spec ([] : List (Int × Int)) 4 4).2 [(1 : Int)] (by decide)

/-- C1: the grid entry at index `y * W + x` is `true` iff all three channels
of the pixel at `(x, y)` exceed 250 or some matcher in the list matches the
pixel's channels within the tolerance. -/
theorem classify_marks_spec (rows : List (List Nat)) (filters : List PNGColor)
    (W H tol : Nat) (rc : Bool) (g : List Bool) (rows' : List (List Nat))
    (x y r gg bb : Nat)
    (hc : classify rows filters W H tol rc = some (g, rows'))
    (hx : x < W) (hy : y < H)
    (hp : pixelAt rows x y = some (r, gg, bb)) :
    g[y * W + x]? =
      some ((decide (250 < r) && decide (250 < gg) && decide (250 < bb)) ||
        filters.any fun c => c.isObstacle r gg bb tol) :=
  filterImgGo_get filters tol rc W H rows g rows' hc x y r gg bb hx hy hp

theorem classify_marks_spec_witness :
    [true][0 * 1 + 0]? =
      some ((decide (250 < 255) && decide (250 < 255) && decide (250 < 255)) ||
        List.any [] fun c => PNGColor.isObstacle c 255 255 255 15) :=
  classify_marks_spec [[255, 255, 255]] [] 1 1 15 false [true] [[255, 255, 255]]
    0 0 255 255 255 (by decide) (by decide) (by decide) (by decide)

/-- C3: a recoloring run returns the same grid as a non-recoloring run on
the same raster (classification uses the original sampled values), and
afterwards every pixel classified obstacle holds exactly (0,0,0) and every
pixel classified free holds exactly (255,255,255). -/
theorem classify_recolor_spec (rows : List (List Nat)) (filters : List PNGColor)
    (W H tol : Nat) (g : List Bool) (rows' : List (List Nat))
    (hc : classify rows filters W H tol true = some (g, rows')) :
    classify rows filters W H tol false = some (g, rows)
    ∧ ∀ x y, x < W → y < H →
        ∃ v, g[y * W + x]? = some v ∧
          pixelAt rows' x y =
            some (if v then 0 else 255, if v then 0 else 255,
              if v then 0 else 255) :=
  ⟨filterImgGo_false_of_true filters tol W H rows g rows' hc,
    fun x y hx hy => filterImgGo_true_get filters tol W H rows g rows' hc x y hx hy⟩

theorem classify_recolor_spec_witness :
    classify [[255, 255, 255]] [] 1 1 15 false = some ([true], [[255, 255, 255]])
    ∧ ∃ v, [true][0 * 1 + 0]? = some v ∧
        pixelAt [[0, 0, 0]] 0 0 =
          some (if v then 0 else 255, if v then 0 else 255, if v then 0 else 255) :=
  have h := classify_recolor_spec [[255, 255, 255]] [] 1 1 15 [true] [[0, 0, 0]]
    (by decide)
  ⟨h.1, h.2 0 0 (by decide) (by decide)⟩

/-- C8: a non-recoloring run leaves the raster bitwise unchanged, so
re-running `classify` with recolor disabled on the same raster and matcher
set yields the identical grid. -/
theorem classify_idempotent_spec (rows : List (List Nat))
    (filters : List PNGColor) (W H tol : Nat) (g : List Bool)
    (rows' : List (List Nat))
    (hc : classify rows filters W H tol false = some (g, rows')) :
    rows' = rows ∧ classify rows' filters W H tol false = some (g, rows') := by
  have h := filterImgGo_false_rows filters tol W H rows g rows' hc
  subst h
  exact ⟨rfl, hc⟩

theorem classify_idempotent_spec_witness :
    [[(255 : Nat), 255, 255]] = [[(255 : Nat), 255, 255]]
    ∧ classify [[255, 255, 255]] [] 1 1 15 false =
        some ([true], [[255, 255, 255]]) :=
  classify_idempotent_spec [[255, 255, 255]] [] 1 1 15 [true] [[255, 255, 255]]
    (by decide)

/-- C9: a successful run of `classify` on a raster with dimensions `W`, `H`
returns a grid of length exactly `W * H` in which every entry is defined. -/
theorem classify_length_spec (rows : List (List Nat)) (filters : List PNGColor)
    (W H tol : Nat) (rc : Bool) (g : List Bool) (rows' : List (List Nat))
    (hc : classify rows filters W H tol rc = some (g, rows')) :
    g.length = W * H ∧ ∀ i, i < W * H → ∃ v, g[i]? = some v := by
  have hl := filterImgGo_length filters tol rc W H rows g rows' hc
  constructor
  · rw [hl, Nat.mul_comm]
  · intro i hi
    have hg : i < g.length := by rw [hl, Nat.mul_comm]; exact hi
    exact ⟨g.get ⟨i, hg⟩, by simp [List.getElem?_eq_getElem hg]⟩

theorem classify_length_spec_witness :
    ([true, false] : List Bool).length = 2 * 1
    ∧ ∀ i, i < 2 * 1 → ∃ v, ([true, false] : List Bool)[i]? = some v :=
  classify_length_spec [[255, 255, 255, 10, 20, 30]] [] 2 1 15 false
    [true, false] [[255, 255, 255, 10, 20, 30]] (by decide)

end Png2dPlanning
